import Mathlib

/-!
Verification of the Spinner state engine (`src/spinner.js`) of the
StudentApp repository.

Shallow embedding of the spinner module.  The JS module keeps, per
category, a live `pool` (the mutable array `categories[cat]`), persisted
`additions`, `exclusions` and `history` mappings (JS objects whose keys
may be absent), a `currentCategory` string and an `excludePicked` flag.
JS objects mapping category names to arrays of labels are embedded as
`String → Option (List String)` (`none` models an absent key).
`Math.random()`-driven choices are embedded as explicit index
parameters.  A JS statement that throws a `TypeError` is embedded as an
`Option`-valued operation returning `none`.
-/

namespace StudentApp

/-- A JS object mapping category names to arrays of labels; `none` models an
absent key, as distinct from a key bound to an empty array. -/
abbrev StoreMap : Type := String → Option (List String)

/-- The empty JS object. -/
def StoreMap.empty : StoreMap := fun _ => none

/-- `m[k] || []` in JS: read a key, treating an absent key as an empty array
(a present empty array is truthy in JS, so it is returned as-is). -/
def StoreMap.getOr (m : StoreMap) (k : String) : List String :=
  (m k).getD []

/-- `m[k] = v` in JS: bind key `k` to array `v`. -/
def StoreMap.setKey (m : StoreMap) (k : String) (v : List String) : StoreMap :=
  fun q => if q = k then some v else m q

/-- `delete m[k]` in JS: remove key `k` from the object. -/
def StoreMap.eraseKey (m : StoreMap) (k : String) : StoreMap :=
  fun q => if q = k then none else m q

/-- The full engine state: `baseCategories` (the config's category mapping, in
key order), the live `categories` pools, and the persisted `additions`,
`exclusions`, `history`, active-category and exclude-on-pick settings. -/
structure SpinnerState where
  baseCategories : List (String × List String)
  categories : StoreMap
  additions : StoreMap
  exclusions : StoreMap
  history : StoreMap
  currentCategory : String
  excludePicked : Bool

/-- The pool-building loop of `init` (spinner.js lines 44–51): for each
category of the base config, `pool = (base ++ added).filter(item not in
excluded)`; categories absent from the base config get no pool at all. -/
def buildCategories (base : List (String × List String))
    (adds excl : StoreMap) : StoreMap :=
  fun cat =>
    (base.lookup cat).map fun b =>
      (b ++ adds.getOr cat).filter fun item => !((excl.getOr cat).contains item)

/-- `init` together with `populateCategorySelect` (spinner.js lines 33–93),
restricted to the state they build: pools are derived from base, additions and
exclusions; the active category is the persisted `savedCat` when it names a
built category, else the first config key.  `Object.keys(categories)[0]` of an
empty object is `undefined`, which JS coerces to the property key
`"undefined"` on every later object access; the embedding uses that string
for the same corner. -/
def init (cfg : List (String × List String)) (adds excl hist : StoreMap)
    (savedCat : String) (exclPicked : Bool) : SpinnerState :=
  let cats := buildCategories cfg adds excl
  { baseCategories := cfg
    categories := cats
    additions := adds
    exclusions := excl
    history := hist
    currentCategory :=
      if (cats savedCat).isSome then savedCat
      else (cfg.map Prod.fst).headD "undefined"
    excludePicked := exclPicked }

/-- `spin` (spinner.js lines 159–185) with the random draw
`Math.floor(Math.random() * pool.length)` made an explicit parameter `i`.
An empty pool (`categories[currentCategory] || []`) displays "No items
available" and changes nothing.  Otherwise `pool[i]` is picked; when
`excludePicked` is set the pool loses index `i` (`pool.splice(index, 1)`
mutates the stored array in place) and the label is pushed onto the persisted
exclusions; the pick is always pushed onto the category's history.  Returns
the new state and the picked label. -/
def spin (s : SpinnerState) (i : Nat) : SpinnerState × Option String :=
  let pool := s.categories.getOr s.currentCategory
  if pool.length = 0 then (s, none)
  else
    let item := pool.getD i ""
    let s1 :=
      if s.excludePicked then
        { s with
          categories := s.categories.setKey s.currentCategory (pool.eraseIdx i)
          exclusions := s.exclusions.setKey s.currentCategory
            (s.exclusions.getOr s.currentCategory ++ [item]) }
      else s
    ({ s1 with
        history := s1.history.setKey s1.currentCategory
          (s1.history.getOr s1.currentCategory ++ [item]) },
      some item)

/-- One swap `[pool[i], pool[j]] = [pool[j], pool[i]]` of the Fisher–Yates
loop; in the source both indices are always in range. -/
def swapIdx (l : List String) (i j : Nat) : List String :=
  if hi : i < l.length then
    if hj : j < l.length then
      (l.set i (l.get ⟨j, hj⟩)).set j (l.get ⟨i, hi⟩)
    else l
  else l

/-- The Fisher–Yates loop of `shuffle` (spinner.js lines 192–195), run from
index `i` down to `1`; `r k` is the draw `Math.floor(Math.random() * (k + 1))`
for loop index `k` (so the source only ever calls it with `r k ≤ k`). -/
def fyLoop (r : Nat → Nat) (pool : List String) : Nat → List String
  | 0 => pool
  | k + 1 => fyLoop r (swapIdx pool (k + 1) (r (k + 1))) k

/-- `shuffle` (spinner.js lines 190–197): permute the live pool in place.
When `categories[currentCategory]` is absent, `pool` is a fresh empty array
and the object is not touched. -/
def shuffle (s : SpinnerState) (r : Nat → Nat) : SpinnerState :=
  match s.categories s.currentCategory with
  | none => s
  | some pool =>
    { s with
      categories := s.categories.setKey s.currentCategory
        (fyLoop r pool (pool.length - 1)) }

/-- `reset` (spinner.js lines 202–216): drop the active category's persisted
exclusions and history and rebuild its pool as `base ++ additions`.  The
spread `[...baseCategories[currentCategory]]` throws a `TypeError` when the
active category is not a base key; the embedding returns `none` there. -/
def reset (s : SpinnerState) : Option SpinnerState :=
  match s.baseCategories.lookup s.currentCategory with
  | none => none
  | some b =>
    some { s with
      exclusions := s.exclusions.eraseKey s.currentCategory
      history := s.history.eraseKey s.currentCategory
      categories := s.categories.setKey s.currentCategory
        (b ++ s.additions.getOr s.currentCategory) }

/-- JS `String.prototype.trim`: strip leading and trailing whitespace.
Embedded on the character list so that it evaluates by `decide`. -/
def jsTrim (s : String) : String :=
  ⟨(((s.data.dropWhile Char.isWhitespace).reverse.dropWhile
      Char.isWhitespace).reverse)⟩

/-- `addNewItem` (spinner.js lines 221–233): trim the input; a blank result is
a no-op, otherwise the label is pushed onto the active category's persisted
additions and onto its live pool (both created when absent). -/
def addNewItem (s : SpinnerState) (input : String) : SpinnerState :=
  let text := jsTrim input
  if text = "" then s
  else
    { s with
      additions := s.additions.setKey s.currentCategory
        (s.additions.getOr s.currentCategory ++ [text])
      categories := s.categories.setKey s.currentCategory
        (s.categories.getOr s.currentCategory ++ [text]) }

/-- `clearHistory` (spinner.js lines 238–243): delete the active category's
history key. -/
def clearHistory (s : SpinnerState) : SpinnerState :=
  { s with history := s.history.eraseKey s.currentCategory }

/-- `getExportCategories` (spinner.js lines 373–381): for every base category,
export `base ++ additions`, ignoring exclusions, history and the live pools. -/
def getExportCategories (s : SpinnerState) : List (String × List String) :=
  s.baseCategories.map fun p => (p.1, p.2 ++ s.additions.getOr p.1)

/-- A small configuration used to instantiate the theorems on concrete data. -/
def demoCfg : List (String × List String) :=
  [("Students", ["Ari", "Leah", "Noam"]), ("Topics", ["Math", "Science"])]

/-- Persisted exclusions for the demo: "Noam" is excluded for "Students". -/
def demoExclusions : StoreMap := StoreMap.empty.setKey "Students" ["Noam"]

/-- Demo engine state with exclude-on-pick active; the "Students" pool derives
to `["Ari", "Leah"]`. -/
def demoState : SpinnerState :=
  init demoCfg StoreMap.empty demoExclusions StoreMap.empty "Students" true

/-- The demo state with exclude-on-pick off. -/
def demoStateNoExclude : SpinnerState :=
  init demoCfg StoreMap.empty demoExclusions StoreMap.empty "Students" false

/-- A state whose active category has an empty pool. -/
def demoEmptyState : SpinnerState :=
  init [("Empty", [])] StoreMap.empty StoreMap.empty StoreMap.empty
    "Empty" true

/-- The demo state after re-adding the already-excluded label "Noam": the
pool holds it at index 2 while "Noam" is still stored in the exclusions. -/
def demoDupState : SpinnerState := addNewItem demoState "Noam"

/-- Persisted data referencing only the category "Ghost", absent from
`demoCfg`. -/
def ghostMap : StoreMap := StoreMap.empty.setKey "Ghost" ["g1"]

@[simp] theorem StoreMap.setKey_self (m : StoreMap) (k : String)
    (v : List String) : m.setKey k v k = some v := by
  simp [StoreMap.setKey]

@[simp] theorem StoreMap.getOr_setKey_self (m : StoreMap) (k : String)
    (v : List String) : (m.setKey k v).getOr k = v := by
  simp [StoreMap.getOr, StoreMap.setKey]

theorem StoreMap.setKey_of_ne (m : StoreMap) (k : String) (v : List String)
    (q : String) (h : q ≠ k) : m.setKey k v q = m q := by
  simp [StoreMap.setKey, h]

@[simp] theorem StoreMap.eraseKey_self (m : StoreMap) (k : String) :
    m.eraseKey k k = none := by
  simp [StoreMap.eraseKey]

theorem StoreMap.eraseKey_of_ne (m : StoreMap) (k q : String) (h : q ≠ k) :
    m.eraseKey k q = m q := by
  simp [StoreMap.eraseKey, h]

/-- Writing position `n` of a list changes the count of any label by swapping
the contribution of the old entry for that of the new one. -/
theorem count_set_add (l : List String) (n : Nat) (b : String)
    (h : n < l.length) (a : String) :
    (l.set n b).count a + (if l.get ⟨n, h⟩ = a then 1 else 0)
      = l.count a + (if b = a then 1 else 0) := by
  induction l generalizing n with
  | nil => simp at h
  | cons x xs ih =>
    cases n with
    | zero =>
      by_cases hx : x = a <;> by_cases hb : b = a <;>
        simp [List.count_cons, hx, hb]
    | succ n =>
      have hn : n < xs.length := by simpa using h
      have H := ih n hn
      simp only [List.get_eq_getElem] at H ⊢
      simp only [List.set, List.count_cons, List.getElem_cons_succ]
      by_cases hx : x = a <;> simp [hx] <;> omega

/-- A single in-place swap permutes the list. -/
theorem swapIdx_perm (l : List String) (i j : Nat) : (swapIdx l i j).Perm l := by
  unfold swapIdx
  split
  case isFalse => exact List.Perm.refl l
  case isTrue hi =>
    split
    case isFalse => exact List.Perm.refl l
    case isTrue hj =>
      rw [List.perm_iff_count]
      intro a
      have hj1 : j < (l.set i (l.get ⟨j, hj⟩)).length := by simpa using hj
      have hA := count_set_add (l.set i (l.get ⟨j, hj⟩)) j (l.get ⟨i, hi⟩) hj1 a
      have hB := count_set_add l i (l.get ⟨j, hj⟩) hi a
      have hC : (l.set i (l.get ⟨j, hj⟩)).get ⟨j, hj1⟩ = l.get ⟨j, hj⟩ := by
        by_cases hij : i = j
        · subst hij
          simp
        · simp [List.get_eq_getElem, List.getElem_set_ne hij]
      rw [hC] at hA
      exact Nat.add_right_cancel (hA.trans hB)

/-- The whole Fisher–Yates loop permutes the pool, whatever indices the
random source yields. -/
theorem fyLoop_perm (r : Nat → Nat) (pool : List String) (k : Nat) :
    (fyLoop r pool k).Perm pool := by
  induction k generalizing pool with
  | zero => exact List.Perm.refl pool
  | succ k ih =>
    exact (ih (swapIdx pool (k + 1) (r (k + 1)))).trans
      (swapIdx_perm pool (k + 1) (r (k + 1)))

/-- Looking a key up in the export list is looking it up in the base config
and appending that key's additions. -/
theorem lookup_map_export (l : List (String × List String)) (m : StoreMap)
    (c : String) :
    (l.map fun p => (p.1, p.2 ++ m.getOr p.1)).lookup c
      = (l.lookup c).map fun b => b ++ m.getOr c := by
  induction l with
  | nil => rfl
  | cons p rest ih =>
    obtain ⟨k, v⟩ := p
    by_cases hc : c = k
    · subst hc
      simp [List.lookup]
    · have hf : (c == k) = false := by simpa using hc
      simp [List.lookup, hf, ih]

/-- C1: spinning with exclude-on-pick active on a non-empty pool removes
exactly the element at the picked index from the live pool (length drops by
one, the other elements keep their order), appends the picked label to the
persisted exclusions of the active category, and appends exactly that label
as one new entry at the end of that category's history. -/
theorem spin_excludeTrue_spec (s : SpinnerState) (i : Nat)
    (hex : s.excludePicked = true)
    (hi : i < (s.categories.getOr s.currentCategory).length) :
    (spin s i).1.categories.getOr s.currentCategory
        = (s.categories.getOr s.currentCategory).take i
          ++ (s.categories.getOr s.currentCategory).drop (i + 1)
    ∧ ((spin s i).1.categories.getOr s.currentCategory).length
        = (s.categories.getOr s.currentCategory).length - 1
    ∧ (spin s i).1.exclusions.getOr s.currentCategory
        = s.exclusions.getOr s.currentCategory
          ++ [(s.categories.getOr s.currentCategory).getD i ""]
    ∧ (spin s i).1.history.getOr s.currentCategory
        = s.history.getOr s.currentCategory
          ++ [(s.categories.getOr s.currentCategory).getD i ""]
    ∧ (spin s i).2 = some ((s.categories.getOr s.currentCategory).getD i "") := by
  have hne : ¬ (s.categories.getOr s.currentCategory).length = 0 := by omega
  refine ⟨?_, ?_, ?_, ?_, ?_⟩ <;>
    simp [spin, hne, hex, List.eraseIdx_eq_take_drop_succ]
  omega

/-- Witness for C1 on the demo state: picking index 1 of
`["Ari", "Leah"]` yields "Leah". -/
theorem spin_excludeTrue_witness :
    demoState.excludePicked = true
    ∧ 1 < (demoState.categories.getOr demoState.currentCategory).length
    ∧ (spin demoState 1).2 = some "Leah"
    ∧ (spin demoState 1).1.categories.getOr demoState.currentCategory
        = ["Ari"]
    ∧ (spin demoState 1).1.exclusions.getOr demoState.currentCategory
        = ["Noam", "Leah"] := by
  have h := spin_excludeTrue_spec demoState 1 (by decide) (by decide)
  exact ⟨by decide, by decide, h.2.2.2.2.trans (by decide),
    h.1.trans (by decide), h.2.2.1.trans (by decide)⟩

/-- C2: the pool computed at initialization is the concatenation
`base ++ additions` filtered by the category's exclusions, preserving order;
with empty base and additions the pool is empty, and exclusion labels absent
from `base ++ additions` have no effect. -/
theorem init_pool_spec (cfg : List (String × List String))
    (adds excl hist : StoreMap) (saved : String) (ep : Bool)
    (cat : String) (b : List String) (hcat : cfg.lookup cat = some b) :
    (init cfg adds excl hist saved ep).categories cat
        = some ((b ++ adds.getOr cat).filter
            fun item => !((excl.getOr cat).contains item))
    ∧ (b = [] → adds.getOr cat = [] →
        (init cfg adds excl hist saved ep).categories cat = some [])
    ∧ ((∀ x ∈ excl.getOr cat, x ∉ b ++ adds.getOr cat) →
        (init cfg adds excl hist saved ep).categories cat
          = some (b ++ adds.getOr cat)) := by
  refine ⟨by simp [init, buildCategories, hcat], ?_, ?_⟩
  · intro h1 h2
    simp [init, buildCategories, hcat, h1, h2]
  · intro h
    simp only [init, buildCategories, hcat, Option.map_some']
    congr 1
    rw [List.filter_eq_self]
    intro a ha
    simpa using fun hx => h a hx ha

/-- Witness for C2: the demo config's "Students" pool initializes to
`["Ari", "Leah"]` ("Noam" is excluded). -/
theorem init_pool_witness :
    demoCfg.lookup "Students" = some ["Ari", "Leah", "Noam"]
    ∧ demoState.categories "Students" = some ["Ari", "Leah"] := by
  have h := init_pool_spec demoCfg StoreMap.empty demoExclusions
    StoreMap.empty "Students" true "Students" ["Ari", "Leah", "Noam"]
    (by decide)
  exact ⟨by decide, h.1.trans (by decide)⟩

/-- C3: reset on the active category rebuilds its pool as
`base ++ additions` (additions retained), deletes that category's entries
from the persisted exclusions and history mappings, and leaves the pools,
additions, exclusions and history of every other category unchanged. -/
theorem reset_spec (s : SpinnerState) (b : List String)
    (hb : s.baseCategories.lookup s.currentCategory = some b) :
    ∃ s', reset s = some s'
      ∧ s'.categories.getOr s.currentCategory
          = b ++ s.additions.getOr s.currentCategory
      ∧ s'.exclusions s.currentCategory = none
      ∧ s'.history s.currentCategory = none
      ∧ s'.additions = s.additions
      ∧ (∀ c, c ≠ s.currentCategory →
          s'.categories c = s.categories c ∧ s'.additions c = s.additions c
          ∧ s'.exclusions c = s.exclusions c ∧ s'.history c = s.history c) := by
  refine ⟨{ s with
      exclusions := s.exclusions.eraseKey s.currentCategory
      history := s.history.eraseKey s.currentCategory
      categories := s.categories.setKey s.currentCategory
        (b ++ s.additions.getOr s.currentCategory) }, ?_, ?_, ?_, ?_, rfl, ?_⟩
  · simp [reset, hb]
  · simp
  · simp
  · simp
  · intro c hc
    exact ⟨StoreMap.setKey_of_ne _ _ _ _ hc, rfl,
      StoreMap.eraseKey_of_ne _ _ _ hc, StoreMap.eraseKey_of_ne _ _ _ hc⟩

/-- Witness for C3: resetting the demo state restores the full "Students"
base list. -/
theorem reset_witness :
    demoState.baseCategories.lookup demoState.currentCategory
        = some ["Ari", "Leah", "Noam"]
    ∧ ∃ s', reset demoState = some s'
        ∧ s'.categories.getOr demoState.currentCategory
            = ["Ari", "Leah", "Noam"]
        ∧ s'.exclusions demoState.currentCategory = none := by
  refine ⟨by decide, ?_⟩
  obtain ⟨s', h1, h2, h3, -⟩ :=
    reset_spec demoState ["Ari", "Leah", "Noam"] (by decide)
  exact ⟨s', h1, h2.trans (by decide), h3⟩

/-- C4: spinning with exclude-on-pick off leaves the pools and the persisted
exclusions exactly unchanged and appends exactly one entry, the picked label,
to the active category's history. -/
theorem spin_excludeFalse_spec (s : SpinnerState) (i : Nat)
    (hex : s.excludePicked = false)
    (hne : s.categories.getOr s.currentCategory ≠ []) :
    (spin s i).1.categories = s.categories
    ∧ (spin s i).1.exclusions = s.exclusions
    ∧ (spin s i).1.history.getOr s.currentCategory
        = s.history.getOr s.currentCategory
          ++ [(s.categories.getOr s.currentCategory).getD i ""]
    ∧ (∀ c, c ≠ s.currentCategory → (spin s i).1.history c = s.history c)
    ∧ (spin s i).2 = some ((s.categories.getOr s.currentCategory).getD i "") := by
  have hlen : ¬ (s.categories.getOr s.currentCategory).length = 0 := by
    simpa [List.length_eq_zero] using hne
  refine ⟨?_, ?_, ?_, ?_, ?_⟩ <;>
    simp [spin, hlen, hex, StoreMap.setKey_of_ne]
  intro c hc
  simp [StoreMap.setKey_of_ne _ _ _ _ hc]

/-- Witness for C4: with exclude-on-pick off, picking index 0 of
`["Ari", "Leah"]` keeps the pool map intact and records "Ari". -/
theorem spin_excludeFalse_witness :
    demoStateNoExclude.excludePicked = false
    ∧ demoStateNoExclude.categories.getOr demoStateNoExclude.currentCategory ≠ []
    ∧ (spin demoStateNoExclude 0).1.categories = demoStateNoExclude.categories
    ∧ (spin demoStateNoExclude 0).1.history.getOr
        demoStateNoExclude.currentCategory = ["Ari"] := by
  have h := spin_excludeFalse_spec demoStateNoExclude 0 (by decide) (by decide)
  exact ⟨by decide, by decide, h.1, h.2.2.1.trans (by decide)⟩

/-- C5: spinning on an empty effective pool is a total no-op, whatever the
exclude-on-pick setting: the state (pool, history, exclusions) is returned
unchanged with no pick, and no exception arises. -/
theorem spin_emptyPool_spec (s : SpinnerState) (i : Nat)
    (hpool : s.categories.getOr s.currentCategory = []) :
    spin s i = (s, none) := by
  simp [spin, hpool]

/-- Witness for C5 on a category whose pool is empty. -/
theorem spin_emptyPool_witness :
    demoEmptyState.categories.getOr demoEmptyState.currentCategory = []
    ∧ spin demoEmptyState 0 = (demoEmptyState, none) :=
  ⟨by decide, spin_emptyPool_spec demoEmptyState 0 (by decide)⟩

/-- C6: shuffle produces a permutation of the active pool — same labels with
the same counts, same length — touches neither history nor exclusions (nor
additions, nor any other category's pool), and leaves an empty or
single-element pool observably unchanged. -/
theorem shuffle_spec (s : SpinnerState) (r : Nat → Nat) :
    ((shuffle s r).categories.getOr s.currentCategory).Perm
        (s.categories.getOr s.currentCategory)
    ∧ (∀ a, ((shuffle s r).categories.getOr s.currentCategory).count a
          = (s.categories.getOr s.currentCategory).count a)
    ∧ ((shuffle s r).categories.getOr s.currentCategory).length
        = (s.categories.getOr s.currentCategory).length
    ∧ (shuffle s r).history = s.history
    ∧ (shuffle s r).exclusions = s.exclusions
    ∧ (shuffle s r).additions = s.additions
    ∧ ((s.categories.getOr s.currentCategory).length ≤ 1 →
        (shuffle s r).categories.getOr s.currentCategory
          = s.categories.getOr s.currentCategory)
    ∧ (∀ c, c ≠ s.currentCategory →
        (shuffle s r).categories c = s.categories c) := by
  cases hm : s.categories s.currentCategory with
  | none =>
    have hs : shuffle s r = s := by simp [shuffle, hm]
    simp [hs]
  | some pool =>
    have hpool : s.categories.getOr s.currentCategory = pool := by
      simp [StoreMap.getOr, hm]
    have hout : (shuffle s r).categories.getOr s.currentCategory
        = fyLoop r pool (pool.length - 1) := by
      simp [shuffle, hm]
    have hperm : ((shuffle s r).categories.getOr s.currentCategory).Perm
        (s.categories.getOr s.currentCategory) := by
      rw [hout, hpool]
      exact fyLoop_perm r pool (pool.length - 1)
    refine ⟨hperm, fun a => hperm.count_eq a, hperm.length_eq, ?_, ?_, ?_, ?_, ?_⟩
    · simp [shuffle, hm]
    · simp [shuffle, hm]
    · simp [shuffle, hm]
    · intro hlen
      rw [hpool] at hlen
      rw [hout, hpool]
      have h0 : pool.length - 1 = 0 := by omega
      rw [h0]
      rfl
    · intro c hc
      simp [shuffle, hm, StoreMap.setKey_of_ne _ _ _ _ hc]

/-- Witness for C6: a concrete shuffle of the demo pool keeps its length. -/
theorem shuffle_witness :
    ((shuffle demoState (fun _ => 0)).categories.getOr
        demoState.currentCategory).length
      = (demoState.categories.getOr demoState.currentCategory).length
    ∧ (shuffle demoState (fun _ => 0)).history = demoState.history :=
  ⟨(shuffle_spec demoState (fun _ => 0)).2.2.1,
    (shuffle_spec demoState (fun _ => 0)).2.2.2.1⟩

/-- C7: addItem on an input that is blank after trimming is a no-op;
otherwise it appends the trimmed label to the active category's additions and
to the end of its live pool, with no deduplication, touching nothing else. -/
theorem addNewItem_spec (s : SpinnerState) (input : String) :
    (jsTrim input = "" → addNewItem s input = s)
    ∧ (jsTrim input ≠ "" →
        (addNewItem s input).additions.getOr s.currentCategory
            = s.additions.getOr s.currentCategory ++ [jsTrim input]
        ∧ (addNewItem s input).categories.getOr s.currentCategory
            = s.categories.getOr s.currentCategory ++ [jsTrim input]
        ∧ (∀ c, c ≠ s.currentCategory →
            (addNewItem s input).additions c = s.additions c
            ∧ (addNewItem s input).categories c = s.categories c)
        ∧ (addNewItem s input).exclusions = s.exclusions
        ∧ (addNewItem s input).history = s.history) := by
  constructor
  · intro h
    simp [addNewItem, h]
  · intro h
    refine ⟨by simp [addNewItem, h], by simp [addNewItem, h], ?_,
      by simp [addNewItem, h], by simp [addNewItem, h]⟩
    intro c hc
    simp only [addNewItem, if_neg h]
    exact ⟨StoreMap.setKey_of_ne _ _ _ _ hc, StoreMap.setKey_of_ne _ _ _ _ hc⟩

/-- Witness for C7: adding "  Dana  " appends "Dana" to additions and pool;
adding blanks changes nothing. -/
theorem addNewItem_witness :
    jsTrim "  Dana  " ≠ ""
    ∧ (addNewItem demoState "  Dana  ").additions.getOr
        demoState.currentCategory = ["Dana"]
    ∧ (addNewItem demoState "  Dana  ").categories.getOr
        demoState.currentCategory = ["Ari", "Leah", "Dana"]
    ∧ jsTrim "   " = ""
    ∧ addNewItem demoState "   " = demoState := by
  have h := (addNewItem_spec demoState "  Dana  ").2 (by decide)
  exact ⟨by decide, h.1.trans (by decide), h.2.1.trans (by decide),
    by decide, (addNewItem_spec demoState "   ").1 (by decide)⟩

/-- C8: the export snapshot is `base ++ additions` for every base category:
it depends only on the base config and the additions, each base key exports
its base list plus its additions, labels of the base list appear even while
excluded, and spins, shuffles and resets never change it. -/
theorem getExportCategories_spec (s : SpinnerState) :
    (∀ s2 : SpinnerState, s2.baseCategories = s.baseCategories →
        s2.additions = s.additions →
        getExportCategories s2 = getExportCategories s)
    ∧ (∀ c b, s.baseCategories.lookup c = some b →
        (getExportCategories s).lookup c = some (b ++ s.additions.getOr c))
    ∧ (∀ c b x, s.baseCategories.lookup c = some b →
        x ∈ s.exclusions.getOr c → x ∈ b →
        ∃ e, (getExportCategories s).lookup c = some e ∧ x ∈ e)
    ∧ (∀ i, getExportCategories (spin s i).1 = getExportCategories s)
    ∧ (∀ r, getExportCategories (shuffle s r) = getExportCategories s)
    ∧ (∀ s', reset s = some s' →
        getExportCategories s' = getExportCategories s) := by
  refine ⟨?_, ?_, ?_, ?_, ?_, ?_⟩
  · intro s2 h1 h2
    simp only [getExportCategories, h1, h2]
  · intro c b hb
    rw [getExportCategories, lookup_map_export, hb]
    rfl
  · intro c b x hb hx hxb
    refine ⟨b ++ s.additions.getOr c, ?_, List.mem_append_left _ hxb⟩
    rw [getExportCategories, lookup_map_export, hb]
    rfl
  · intro i
    by_cases h0 : (s.categories.getOr s.currentCategory).length = 0 <;>
      by_cases he : s.excludePicked <;>
      simp [spin, getExportCategories, h0, he]
  · intro r
    cases hm : s.categories s.currentCategory <;>
      simp [shuffle, getExportCategories, hm]
  · intro s' hs'
    cases hl : s.baseCategories.lookup s.currentCategory with
    | none => simp [reset, hl] at hs'
    | some b =>
      simp [reset, hl] at hs'
      subst hs'
      rfl

/-- Witness for C8: the export of the demo state still lists the excluded
"Noam". -/
theorem getExportCategories_witness :
    demoState.baseCategories.lookup "Students" = some ["Ari", "Leah", "Noam"]
    ∧ (getExportCategories demoState).lookup "Students"
        = some ["Ari", "Leah", "Noam"] := by
  have h := (getExportCategories_spec demoState).2.1 "Students"
    ["Ari", "Leah", "Noam"] (by decide)
  exact ⟨by decide, h.trans (by decide)⟩

/-- C9 counterexample: with an empty base configuration — accepted by the
app's `validateConfig` — and a persisted active category "Students" that no
base category defines, initialization falls back to the JS `undefined` key
and `reset` then evaluates `[...baseCategories[undefined]]`, a thrown
`TypeError` (embedded as `none`).  So not every engine operation tolerates
orphaned persisted references without raising. -/
theorem reset_orphan_counterexample :
    reset (init [] StoreMap.empty StoreMap.empty StoreMap.empty
      "Students" false) = none := rfl

/-- C9 amended: provided the base configuration defines at least one
category, initialization tolerates arbitrary orphaned persisted references
(building no pool for them and falling back to the first config key as
active category, so the active category is always a base key), every engine
operation keeps the base config and active category intact, and `reset` —
the one operation that can throw — succeeds on every such state; spin,
shuffle, addItem and clearHistory are total in any case. -/
theorem orphan_tolerance_amended (cfg : List (String × List String))
    (adds excl hist : StoreMap) (saved : String) (ep : Bool)
    (hcfg : cfg ≠ []) :
    ((init cfg adds excl hist saved ep).baseCategories.lookup
        (init cfg adds excl hist saved ep).currentCategory).isSome
    ∧ (∀ c, cfg.lookup c = none →
        (init cfg adds excl hist saved ep).categories c = none)
    ∧ (∀ s : SpinnerState,
        (s.baseCategories.lookup s.currentCategory).isSome → (reset s).isSome)
    ∧ (∀ s s' : SpinnerState, reset s = some s' →
        s'.baseCategories = s.baseCategories
        ∧ s'.currentCategory = s.currentCategory)
    ∧ (∀ (s : SpinnerState) (i : Nat),
        (spin s i).1.baseCategories = s.baseCategories
        ∧ (spin s i).1.currentCategory = s.currentCategory)
    ∧ (∀ (s : SpinnerState) (r : Nat → Nat),
        (shuffle s r).baseCategories = s.baseCategories
        ∧ (shuffle s r).currentCategory = s.currentCategory)
    ∧ (∀ (s : SpinnerState) (inp : String),
        (addNewItem s inp).baseCategories = s.baseCategories
        ∧ (addNewItem s inp).currentCategory = s.currentCategory)
    ∧ (∀ s : SpinnerState,
        (clearHistory s).baseCategories = s.baseCategories
        ∧ (clearHistory s).currentCategory = s.currentCategory) := by
  refine ⟨?_, ?_, ?_, ?_, ?_, ?_, ?_, fun s => ⟨rfl, rfl⟩⟩
  · by_cases hs : ((buildCategories cfg adds excl) saved).isSome
    · have hl : (cfg.lookup saved).isSome := by
        simpa [buildCategories] using hs
      simpa [init, hs] using hl
    · obtain ⟨⟨k, v⟩, rest, rfl⟩ : ∃ p rest, cfg = p :: rest := by
        cases cfg with
        | nil => exact absurd rfl hcfg
        | cons p rest => exact ⟨p, rest, rfl⟩
      simp [init, hs, List.lookup]
  · intro c hc
    simp [init, buildCategories, hc]
  · intro s h
    cases hl : s.baseCategories.lookup s.currentCategory with
    | none => simp [hl] at h
    | some b => simp [reset, hl]
  · intro s s' hs'
    cases hl : s.baseCategories.lookup s.currentCategory with
    | none => simp [reset, hl] at hs'
    | some b =>
      simp [reset, hl] at hs'
      subst hs'
      exact ⟨rfl, rfl⟩
  · intro s i
    by_cases h0 : (s.categories.getOr s.currentCategory).length = 0 <;>
      by_cases he : s.excludePicked <;>
      simp [spin, h0, he]
  · intro s r
    cases hm : s.categories s.currentCategory <;> simp [shuffle, hm]
  · intro s inp
    by_cases ht : jsTrim inp = "" <;> simp [addNewItem, ht]

/-- Witness for C9 amended: persisted data referencing only the orphaned
category "Ghost" is tolerated by initialization over the demo config. -/
theorem orphan_tolerance_witness :
    demoCfg ≠ []
    ∧ ((init demoCfg ghostMap ghostMap ghostMap "Ghost" true).baseCategories.lookup
        (init demoCfg ghostMap ghostMap ghostMap "Ghost" true).currentCategory).isSome
    ∧ (init demoCfg ghostMap ghostMap ghostMap "Ghost" true).categories "Ghost"
        = none := by
  have h := orphan_tolerance_amended demoCfg ghostMap ghostMap ghostMap
    "Ghost" true (by decide)
  exact ⟨by decide, h.1, h.2.1 "Ghost" (by decide)⟩

/-- C10: with exclude-on-pick active, the picked label is appended to the
persisted exclusions even when that label is already stored there (its stored
count strictly grows — no set-style deduplication), yet the pools rebuilt at
the next initialization are the same as with the exclusions before the
duplicate was appended, because the rebuild filters by label membership. -/
theorem spin_exclusions_noDedup_spec (s : SpinnerState) (i : Nat)
    (hex : s.excludePicked = true)
    (hi : i < (s.categories.getOr s.currentCategory).length)
    (hmem : (s.categories.getOr s.currentCategory).getD i ""
        ∈ s.exclusions.getOr s.currentCategory) :
    ((spin s i).1.exclusions.getOr s.currentCategory
        = s.exclusions.getOr s.currentCategory
          ++ [(s.categories.getOr s.currentCategory).getD i ""])
    ∧ ((spin s i).1.exclusions.getOr s.currentCategory).count
          ((s.categories.getOr s.currentCategory).getD i "")
        = (s.exclusions.getOr s.currentCategory).count
            ((s.categories.getOr s.currentCategory).getD i "") + 1
    ∧ (∀ (cfg : List (String × List String)) (adds hist : StoreMap)
          (sv : String) (ep : Bool) (c : String),
        (init cfg adds ((spin s i).1.exclusions) hist sv ep).categories c
          = (init cfg adds s.exclusions hist sv ep).categories c) := by
  have hne : ¬ (s.categories.getOr s.currentCategory).length = 0 := by omega
  have hE : (spin s i).1.exclusions
      = s.exclusions.setKey s.currentCategory
          (s.exclusions.getOr s.currentCategory
            ++ [(s.categories.getOr s.currentCategory).getD i ""]) := by
    simp [spin, hne, hex]
  refine ⟨by simp [hE], by simp [hE], ?_⟩
  intro cfg adds hist sv ep c
  simp only [init]
  rw [hE]
  unfold buildCategories
  by_cases hc : c = s.currentCategory
  · subst hc
    have hcont : ∀ x : String,
        ((s.exclusions.getOr s.currentCategory
            ++ [(s.categories.getOr s.currentCategory).getD i ""]).contains x)
          = ((s.exclusions.getOr s.currentCategory).contains x) := by
      intro x
      have hmem2 : (s.categories.getOr s.currentCategory)[i]?.getD ""
          ∈ s.exclusions.getOr s.currentCategory := by simpa using hmem
      by_cases hx : x = (s.categories.getOr s.currentCategory).getD i ""
      · subst hx
        simp [hmem, hmem2]
      · have hx2 : ¬ x = (s.categories.getOr s.currentCategory)[i]?.getD "" := by
          simpa using hx
        simp [hx, hx2]
    simp only [StoreMap.getOr_setKey_self]
    congr 1
    funext b
    exact List.filter_congr fun x _ => by rw [hcont x]
  · have hgo : (s.exclusions.setKey s.currentCategory
          (s.exclusions.getOr s.currentCategory
            ++ [(s.categories.getOr s.currentCategory).getD i ""])).getOr c
        = s.exclusions.getOr c := by
      simp [StoreMap.getOr, StoreMap.setKey_of_ne _ _ _ _ hc]
    simp only [hgo]

/-- Witness for C10: after re-adding the excluded "Noam" and picking it, the
stored exclusions hold "Noam" twice. -/
theorem spin_exclusions_noDedup_witness :
    demoDupState.excludePicked = true
    ∧ 2 < (demoDupState.categories.getOr demoDupState.currentCategory).length
    ∧ (demoDupState.categories.getOr demoDupState.currentCategory).getD 2 ""
        ∈ demoDupState.exclusions.getOr demoDupState.currentCategory
    ∧ (spin demoDupState 2).1.exclusions.getOr demoDupState.currentCategory
        = ["Noam", "Noam"] := by
  have h := spin_exclusions_noDedup_spec demoDupState 2 (by decide)
    (by decide) (by decide)
  exact ⟨by decide, by decide, by decide, h.1.trans (by decide)⟩

end StudentApp
